import Mathlib

/-
Verification of the multi-step interval-timer ("alarm series") feature.

The definitions below are a shallow embedding of the React component in
app/(tabs)/series.tsx.  The component's useState variables become the fields
of ScreenState; each handler becomes a function from ScreenState to
ScreenState (plus a list of user-perceivable events).  The persisted slot of
AsyncStorage under STORAGE_KEY is modelled as a field storage; a stored
string is represented by its JSON parse result (some j for a string that
parses to the JSON value j, none for a string on which JSON.parse throws).
Fallible writes are modelled by an explicit writeOk parameter: writeOk =
false means AsyncStorage.setItem rejected, in which case control jumps to
the enclosing catch block.  Wall-clock readings enter as explicit elapsed
arguments, exactly as the timer effect computes elapsed from Date.now().
-/

/-- One step of an alarm series, interface AlarmStep of series.tsx.
Durations are JS numbers holding millisecond counts; they are modelled as
Int because nothing in the code prevents a negative value. -/
structure AlarmStep where
  id : String
  duration : Int
  name : String
deriving DecidableEq

/-- interface AlarmSeries of series.tsx. -/
structure AlarmSeries where
  id : String
  name : String
  steps : List AlarmStep
deriving DecidableEq

/-- User-perceivable signals emitted by the handlers: a step-boundary haptic
(playAlarm, annotated with the id of the step whose boundary it marks), the
series-completion alert, and plain error alerts. -/
inductive Event where
  | stepBoundary (stepId : String)
  | seriesComplete
  | alert (msg : String)
deriving DecidableEq

/-- A JSON value, as produced by JSON.parse on a valid JSON string. -/
inductive Json where
  | null
  | bool (b : Bool)
  | num (n : Int)
  | str (s : String)
  | arr (items : List Json)
  | obj (fields : List (String × Json))

/-- The component state: the useState variables of SeriesScreen plus the
persisted AsyncStorage slot.  storage = none models an absent slot;
storage = some none models a stored string that is not valid JSON;
storage = some (some j) models a stored string whose JSON.parse yields j. -/
structure ScreenState where
  series : List AlarmSeries
  currentSeries : Option AlarmSeries
  isEditing : Bool
  isPlaying : Bool
  currentStep : Option AlarmStep
  remainingTime : Int
  storage : Option (Option Json)

/-- JSON.stringify of one AlarmStep, field order as in the interface. -/
def encodeStep (s : AlarmStep) : Json :=
  .obj [(("id"), .str s.id), (("duration"), .num s.duration), (("name"), .str s.name)]

/-- JSON.stringify of one AlarmSeries. -/
def encodeSeries (s : AlarmSeries) : Json :=
  .obj [(("id"), .str s.id), (("name"), .str s.name), (("steps"), .arr (s.steps.map encodeStep))]

/-- JSON.stringify of the whole collection, the value written under STORAGE_KEY. -/
def encodeSeriesList (l : List AlarmSeries) : Json :=
  .arr (l.map encodeSeries)

/-- Decoder for a step record of the persisted format of section 6 of the
spec; returns none on any value that is not a valid step record. -/
def decodeStep : Json → Option AlarmStep
  | .obj [(k1, .str i), (k2, .num d), (k3, .str n)] =>
    if k1 = ("id") ∧ k2 = ("duration") ∧ k3 = ("name") then
      some { id := i, duration := d, name := n }
    else none
  | _ => none

/-- Decoder for a list of step records. -/
def decodeSteps : List Json → Option (List AlarmStep)
  | [] => some []
  | j :: rest =>
    match decodeStep j, decodeSteps rest with
    | some s, some l => some (s :: l)
    | _, _ => none

/-- Decoder for a series record. -/
def decodeSeries : Json → Option AlarmSeries
  | .obj [(k1, .str i), (k2, .str n), (k3, .arr items)] =>
    if k1 = ("id") ∧ k2 = ("name") ∧ k3 = ("steps") then
      match decodeSteps items with
      | some steps => some { id := i, name := n, steps := steps }
      | none => none
    else none
  | _ => none

/-- Decoder for a list of series records. -/
def decodeSeriesListAux : List Json → Option (List AlarmSeries)
  | [] => some []
  | j :: rest =>
    match decodeSeries j, decodeSeriesListAux rest with
    | some s, some l => some (s :: l)
    | _, _ => none

/-- Decoder for a persisted collection: the payload must be an array of
valid series records to count as valid Series data. -/
def decodeSeriesList : Json → Option (List AlarmSeries)
  | .arr items => decodeSeriesListAux items
  | _ => none

/-- Outcome of loadSeries (series.tsx lines 55-69): either the slot is
absent (the series state keeps its initial value, the empty list), or
JSON.parse threw (the catch block alerts and the series state keeps its
initial value), or JSON.parse succeeded and setSeries installs the parsed
value, whatever it is. -/
inductive LoadOutcome where
  | noStored
  | parseFailed
  | installed (parsed : Json)

/-- loadSeries of series.tsx: reads the slot, installs JSON.parse's result
via setSeries when parsing succeeds, alerts on a parse exception, does
nothing when the slot is empty.  Returned events are the alerts shown. -/
def loadSeries : Option (Option Json) → LoadOutcome × List Event
  | none => (.noStored, [])
  | some none => (.parseFailed, [Event.alert ("Failed to load series. Please restart the app.")])
  | some (some j) => (.installed j, [])

/-- saveSeries of series.tsx lines 71-80: setItem then setSeries inside a
try block.  When the write fails the catch block alerts and setSeries is
never reached, so neither the slot nor the in-memory list changes. -/
def saveSeries (writeOk : Bool) (st : ScreenState) (newSeries : List AlarmSeries) :
    ScreenState × List Event :=
  if writeOk then
    ({ st with storage := some (some (encodeSeriesList newSeries)), series := newSeries }, [])
  else
    (st, [Event.alert ("Failed to save series. Please try again.")])

/-- handleDeleteSeries of series.tsx lines 136-163: the state updates
(setSeries, setIsEditing false, setCurrentSeries null) happen first, then
the storage write; a failing write alerts but the state updates stand.
Note that neither isPlaying nor currentStep nor remainingTime is touched. -/
def handleDeleteSeries (writeOk : Bool) (st : ScreenState) (seriesId : String) :
    ScreenState × List Event :=
  let updatedSeries := st.series.filter (fun s => s.id ≠ seriesId)
  let st1 := { st with series := updatedSeries, isEditing := false, currentSeries := none }
  if writeOk then
    ({ st1 with storage := some (some (encodeSeriesList updatedSeries)) }, [])
  else
    (st1, [Event.alert ("Failed to delete series. Please try again.")])

/-- A Partial of AlarmStep, the updates argument of handleUpdateStep;
absent fields leave the step's fields unchanged. -/
structure StepPatch where
  id? : Option String := none
  duration? : Option Int := none
  name? : Option String := none

/-- The spread of a patch over a step, the object literal with step spread
then updates spread. -/
def applyPatch (s : AlarmStep) (p : StepPatch) : AlarmStep :=
  { id := p.id?.getD s.id, duration := p.duration?.getD s.duration, name := p.name?.getD s.name }

/-- handleUpdateStep of series.tsx lines 165-174. -/
def handleUpdateStep (st : ScreenState) (stepId : String) (p : StepPatch) : ScreenState :=
  match st.currentSeries with
  | none => st
  | some cs =>
    { st with currentSeries := some { cs with
        steps := cs.steps.map (fun s => if s.id = stepId then applyPatch s p else s) } }

/-- handleAddStep of series.tsx lines 100-113; the generated id is
Date.now().toString(), passed here as the explicit clock reading now. -/
def handleAddStep (st : ScreenState) (now : Nat) : ScreenState :=
  match st.currentSeries with
  | none => st
  | some cs =>
    let newStep : AlarmStep :=
      { id := toString now, duration := 60000, name := ("Step ") ++ toString (cs.steps.length + 1) }
    { st with currentSeries := some { cs with steps := cs.steps ++ [newStep] } }

/-- handleReorderSteps of series.tsx lines 176-179: installs the supplied
list as the draft's steps with no validation of any kind. -/
def handleReorderSteps (st : ScreenState) (steps : List AlarmStep) : ScreenState :=
  match st.currentSeries with
  | none => st
  | some cs => { st with currentSeries := some { cs with steps := steps } }

/-- The series-name TextInput handler of the edit modal (series.tsx line 445). -/
def handleRenameSeries (st : ScreenState) (text : String) : ScreenState :=
  match st.currentSeries with
  | none => st
  | some cs => { st with currentSeries := some { cs with name := text } }

/-- The per-step delete handler of renderStepItem (series.tsx lines 315-326):
filters the step out of the draft, installs the result, and immediately
persists the patched collection through saveSeries. -/
def handleRemoveStep (writeOk : Bool) (st : ScreenState) (stepId : String) :
    ScreenState × List Event :=
  match st.currentSeries with
  | none => (st, [])
  | some cs =>
    let updatedSteps := cs.steps.filter (fun s => s.id ≠ stepId)
    let updatedSeries := { cs with steps := updatedSteps }
    let st1 := { st with currentSeries := some updatedSeries }
    let updatedSeriesList := st.series.map (fun s => if s.id = cs.id then updatedSeries else s)
    saveSeries writeOk st1 updatedSeriesList

/-- handlePlaySeries of series.tsx lines 199-210: rejects an empty series
with an alert and no state change; otherwise installs the series as
currentSeries, its first step as currentStep, that step's duration as the
remaining time, and starts playing. -/
def handlePlaySeries (st : ScreenState) (s : AlarmSeries) : ScreenState × List Event :=
  match s.steps with
  | [] => (st, [Event.alert ("Please add steps to the series first")])
  | first :: _ =>
    ({ st with currentSeries := some s, currentStep := some first,
               remainingTime := first.duration, isPlaying := true }, [])

/-- handleStopSeries of series.tsx lines 212-218. -/
def handleStopSeries (st : ScreenState) : ScreenState :=
  { st with isPlaying := false, currentStep := none, remainingTime := 0 }

/-- Array.prototype.findIndex specialised to the id lookup of the timer
effect: index of the first step with the given id, -1 when absent. -/
def findIndexById : List AlarmStep → String → Int
  | [], _ => -1
  | s :: rest, sid =>
    if s.id = sid then 0
    else
      let r := findIndexById rest sid
      if r < 0 then -1 else r + 1

/-- Math.max(0, duration - elapsed), the newRemaining computation of the
timer effect (series.tsx line 230). -/
def newRemaining (duration elapsed : Int) : Int :=
  max 0 (duration - elapsed)

/-- The boundary branch of the timer effect (series.tsx lines 232-244):
playAlarm fires, then the current step's index is looked up by id in
currentSeries (which may have changed since the step started); if a later
step exists playback advances to it with its full duration, otherwise the
session is stopped and the Series Complete alert fires. -/
def advanceStep (st : ScreenState) (cur : AlarmStep) : ScreenState × List Event :=
  let steps := match st.currentSeries with
    | some cs => cs.steps
    | none => []
  let idx := findIndexById steps cur.id
  if 0 ≤ idx ∧ idx < (steps.length : Int) - 1 then
    let next := steps.getD (idx.toNat + 1) cur
    ({ st with currentStep := some next, remainingTime := next.duration },
     [Event.stepBoundary cur.id])
  else
    (handleStopSeries st, [Event.stepBoundary cur.id, Event.seriesComplete])

/-- One delivery of the setInterval callback of the timer effect
(series.tsx lines 228-250), with elapsed = Date.now() - startTime made
explicit.  Outside a running step the effect installs no interval, so a
tick does nothing. -/
def tick (st : ScreenState) (elapsed : Int) : ScreenState × List Event :=
  match st.isPlaying, st.currentStep with
  | true, some cur =>
    let r := newRemaining cur.duration elapsed
    if r ≤ 0 then advanceStep st cur
    else ({ st with remainingTime := r }, [])
  | _, _ => (st, [])

/-- A sequence of tick deliveries, each with its own elapsed reading
(elapsed is measured from the start of whatever step is then current,
because the effect re-runs and captures a fresh startTime whenever
currentStep changes); the concatenation of the emitted events. -/
def runTicks : ScreenState → List Int → List Event
  | _, [] => []
  | st, e :: els => (tick st e).2 ++ runTicks (tick st e).1 els

/-- A tick schedule that drives a run over the given steps to completion:
for the step at the head, any number of early ticks (elapsed below the
duration) may precede the one boundary-crossing tick (elapsed at least the
duration), after which the schedule continues with the remaining steps;
the schedule ends exactly when the steps are exhausted. -/
inductive CompleteRun : List AlarmStep → List Int → Prop where
  | nil : CompleteRun [] []
  | stay {c : AlarmStep} {rest : List AlarmStep} {e : Int} {els : List Int} :
      e < c.duration → CompleteRun (c :: rest) els → CompleteRun (c :: rest) (e :: els)
  | cross {c : AlarmStep} {rest : List AlarmStep} {e : Int} {els : List Int} :
      c.duration ≤ e → CompleteRun rest els → CompleteRun (c :: rest) (e :: els)

/-- Every step of the list has a nonnegative duration, the duration
invariant of the data model, as an executable check. -/
def durationsOk (l : List AlarmStep) : Bool :=
  l.all (fun s => decide (0 ≤ s.duration))

/-- The component state right after mount, before any interaction: every
useState holds its initial value and nothing is persisted. -/
def idleState : ScreenState :=
  { series := [], currentSeries := none, isEditing := false, isPlaying := false,
    currentStep := none, remainingTime := 0, storage := none }

/-- A two-step series used to exercise playback and editing. -/
def pomodoro : AlarmSeries :=
  { id := ("p1"), name := ("Pomodoro"),
    steps := [{ id := ("a"), duration := 100, name := ("Work") },
              { id := ("b"), duration := 200, name := ("Break") }] }

/-- A state in which pomodoro is playing and positioned on its first step. -/
def stateC3 : ScreenState :=
  { series := [pomodoro], currentSeries := some pomodoro, isEditing := false,
    isPlaying := true, currentStep := some { id := ("a"), duration := 100, name := ("Work") },
    remainingTime := 100, storage := none }

/-- A one-step series and a state in which it is playing. -/
def singleQ : AlarmSeries :=
  { id := ("q1"), name := ("Q"), steps := [{ id := ("x"), duration := 100, name := ("X") }] }

/-- A state in which singleQ is the playing series. -/
def stateC4 : ScreenState :=
  { series := [singleQ], currentSeries := some singleQ, isEditing := false,
    isPlaying := true, currentStep := some { id := ("x"), duration := 100, name := ("X") },
    remainingTime := 100, storage := none }

/-- A state whose edit draft holds the two pomodoro steps. -/
def stateC8 : ScreenState :=
  { series := [pomodoro], currentSeries := some pomodoro, isEditing := true,
    isPlaying := false, currentStep := none, remainingTime := 0, storage := none }

/-- A series whose single step carries the id 5, the string Date.now would
produce at clock reading 5. -/
def seriesC9 : AlarmSeries :=
  { id := ("s9"), name := ("S"),
    steps := [{ id := ("5"), duration := 60000, name := ("Step 1") }] }

/-- A state whose edit draft is seriesC9. -/
def stateC9 : ScreenState :=
  { series := [], isEditing := true, isPlaying := false, currentStep := none,
    remainingTime := 0, storage := none, currentSeries := some seriesC9 }

/-- A series whose single step satisfies the duration invariant. -/
def seriesC10 : AlarmSeries :=
  { id := ("s10"), name := ("T"),
    steps := [{ id := ("a"), duration := 60000, name := ("Step 1") }] }

/-- A state whose edit draft is seriesC10. -/
def stateC10 : ScreenState :=
  { series := [], isEditing := true, isPlaying := false, currentStep := none,
    remainingTime := 0, storage := none, currentSeries := some seriesC10 }

/-- The step decoder inverts the step encoder. -/
theorem decodeStep_encodeStep (s : AlarmStep) : decodeStep (encodeStep s) = some s := by
  simp [encodeStep, decodeStep]

/-- The step-list decoder inverts the mapped step encoder. -/
theorem decodeSteps_map_encodeStep (l : List AlarmStep) :
    decodeSteps (l.map encodeStep) = some l := by
  induction l with
  | nil => rfl
  | cons s rest ih => simp [decodeSteps, decodeStep_encodeStep, ih]

/-- The series decoder inverts the series encoder. -/
theorem decodeSeries_encodeSeries (s : AlarmSeries) :
    decodeSeries (encodeSeries s) = some s := by
  simp [encodeSeries, decodeSeries, decodeSteps_map_encodeStep]

/-- The collection-list decoder inverts the mapped series encoder. -/
theorem decodeSeriesListAux_map (l : List AlarmSeries) :
    decodeSeriesListAux (l.map encodeSeries) = some l := by
  induction l with
  | nil => rfl
  | cons s rest ih => simp [decodeSeriesListAux, decodeSeries_encodeSeries, ih]

/-- The collection decoder inverts the collection encoder: a persisted
payload written by saveSeries decodes to exactly the collection saved. -/
theorem decodeSeriesList_encodeSeriesList (l : List AlarmSeries) :
    decodeSeriesList (encodeSeriesList l) = some l := by
  simp [encodeSeriesList, decodeSeriesList, decodeSeriesListAux_map]

/-- findIndex finds the position of a step whose id occurs nowhere earlier. -/
theorem findIndexById_of_fresh (pre : List AlarmStep) (c : AlarmStep) (rest : List AlarmStep)
    (h : ∀ a ∈ pre, a.id ≠ c.id) :
    findIndexById (pre ++ c :: rest) c.id = (pre.length : Int) := by
  induction pre with
  | nil => simp [findIndexById]
  | cons a pre ih =>
    have ha : a.id ≠ c.id := h a (by simp)
    have ih' := ih (fun x hx => h x (by simp [hx]))
    have hnn : ¬ ((pre.length : Int) < 0) := by omega
    simp only [List.cons_append, findIndexById, List.append_eq, ih', ha, if_false,
      hnn, List.length_cons]
    push_cast
    ring

/-- Indexing one past a prefix of known length lands on the next element. -/
theorem getD_append_length_succ (pre : List AlarmStep) (c x : AlarmStep)
    (rest : List AlarmStep) (d : AlarmStep) :
    (pre ++ c :: x :: rest).getD (pre.length + 1) d = x := by
  induction pre with
  | nil => rfl
  | cons a pre ih => simpa using ih

/-- In a series whose step ids are nodup, no step in front of c shares c's id. -/
theorem fresh_of_nodup (pre : List AlarmStep) (c : AlarmStep) (rest : List AlarmStep)
    (h : ((pre ++ c :: rest).map AlarmStep.id).Nodup) :
    ∀ a ∈ pre, a.id ≠ c.id := by
  intro a ha heq
  rw [List.map_append] at h
  rcases List.nodup_append.mp h with ⟨_, _, hdisj⟩
  exact hdisj (List.mem_map_of_mem AlarmStep.id ha) (by simp [heq])

/-- Reduction of tick in a running state. -/
theorem tick_running (st : ScreenState) (c : AlarmStep) (e : Int)
    (hp : st.isPlaying = true) (hstep : st.currentStep = some c) :
    tick st e =
      if newRemaining c.duration e ≤ 0 then advanceStep st c
      else ({ st with remainingTime := newRemaining c.duration e }, []) := by
  unfold tick
  rw [hp, hstep]

/-- A late-enough tick makes the computed remaining time hit zero. -/
theorem newRemaining_le_zero (d e : Int) (h : d ≤ e) : newRemaining d e ≤ 0 := by
  unfold newRemaining
  omega

/-- An early tick leaves a positive remaining time equal to the exact gap. -/
theorem newRemaining_of_lt (d e : Int) (h : e < d) :
    0 < newRemaining d e ∧ newRemaining d e = d - e := by
  unfold newRemaining
  omega

/-- A completing schedule over no steps is empty. -/
theorem completeRun_nil (els : List Int) (h : CompleteRun [] els) : els = [] := by
  cases h
  rfl

/-- Reduction of advanceStep when a later step exists: playback advances to
the immediately following step with its full duration, emitting exactly the
boundary event of the step just finished. -/
theorem advanceStep_mid (st : ScreenState) (s : AlarmSeries) (pre : List AlarmStep)
    (c c2 : AlarmStep) (rest2 : List AlarmStep)
    (hcs : st.currentSeries = some s)
    (hs : s.steps = pre ++ c :: c2 :: rest2)
    (hnd : (s.steps.map AlarmStep.id).Nodup) :
    advanceStep st c =
      ({ st with currentStep := some c2, remainingTime := c2.duration },
       [Event.stepBoundary c.id]) := by
  have hfresh : ∀ a ∈ pre, a.id ≠ c.id :=
    fresh_of_nodup pre c (c2 :: rest2) (by rw [hs] at hnd; exact hnd)
  simp only [advanceStep, hcs]
  rw [hs, findIndexById_of_fresh pre c (c2 :: rest2) hfresh]
  have hlen : ((pre ++ c :: c2 :: rest2).length : Int) =
      (pre.length : Int) + (rest2.length : Int) + 2 := by
    simp
    ring
  rw [if_pos (by rw [hlen]; omega)]
  rw [Int.toNat_natCast, getD_append_length_succ]

/-- Reduction of advanceStep at the last step: the session stops and the
boundary event is followed by the completion event. -/
theorem advanceStep_last (st : ScreenState) (s : AlarmSeries) (pre : List AlarmStep)
    (c : AlarmStep) (hcs : st.currentSeries = some s) (hs : s.steps = pre ++ [c])
    (hnd : (s.steps.map AlarmStep.id).Nodup) :
    advanceStep st c =
      (handleStopSeries st, [Event.stepBoundary c.id, Event.seriesComplete]) := by
  have hfresh : ∀ a ∈ pre, a.id ≠ c.id :=
    fresh_of_nodup pre c [] (by rw [hs] at hnd; exact hnd)
  simp only [advanceStep, hcs]
  rw [hs, findIndexById_of_fresh pre c [] hfresh]
  have hlen : ((pre ++ [c]).length : Int) = (pre.length : Int) + 1 := by
    simp
  rw [if_neg (by rw [hlen]; omega)]

/-- Core playback induction: from a running state positioned at step c of
series s, with pre the list of already finished steps, any completing tick
schedule for the still-pending steps yields exactly one boundary event per
pending step, in order, then the single completion event. -/
theorem runTicks_completes (s : AlarmSeries) (hnd : (s.steps.map AlarmStep.id).Nodup)
    (steps2 : List AlarmStep) (els : List Int) (h : CompleteRun steps2 els) :
    ∀ (pre : List AlarmStep) (c : AlarmStep) (rest : List AlarmStep) (st : ScreenState),
      steps2 = c :: rest →
      s.steps = pre ++ c :: rest →
      st.currentSeries = some s → st.isPlaying = true → st.currentStep = some c →
      runTicks st els =
        ((c :: rest).map (fun x => Event.stepBoundary x.id)) ++ [Event.seriesComplete] := by
  induction h with
  | nil =>
    intro pre c rest st heq hs hcs hp hstep
    exact absurd heq (by simp)
  | @stay c0 rest0 e els0 hlt hrun ih =>
    intro pre c rest st heq hs hcs hp hstep
    injection heq with h1 h2
    subst h1
    subst h2
    have hr := newRemaining_of_lt c0.duration e hlt
    have htick : tick st e = ({ st with remainingTime := newRemaining c0.duration e }, []) := by
      rw [tick_running st c0 e hp hstep, if_neg (by omega)]
    rw [runTicks, htick]
    simp only [List.nil_append]
    exact ih pre c0 rest0 _ rfl hs hcs hp hstep
  | @cross c0 rest0 e els0 hle hrun ih =>
    intro pre c rest st heq hs hcs hp hstep
    injection heq with h1 h2
    subst h1
    subst h2
    have htick : tick st e = advanceStep st c0 := by
      rw [tick_running st c0 e hp hstep, if_pos (newRemaining_le_zero _ _ hle)]
    cases rest0 with
    | nil =>
      have hels0 : els0 = [] := completeRun_nil els0 hrun
      subst hels0
      rw [runTicks, htick, advanceStep_last st s pre c0 hcs hs hnd]
      simp [runTicks]
    | cons c2 rest2 =>
      rw [runTicks, htick, advanceStep_mid st s pre c0 c2 rest2 hcs hs hnd]
      have hrec := ih (pre ++ [c0]) c2 rest2
        { st with currentStep := some c2, remainingTime := c2.duration }
        rfl (by rw [hs]; simp) hcs hp rfl
      rw [hrec]
      simp

/-- saveSeries never touches the playback fields or the edit draft. -/
theorem saveSeries_frame (writeOk : Bool) (st : ScreenState) (ns : List AlarmSeries) :
    (saveSeries writeOk st ns).1.currentSeries = st.currentSeries ∧
    (saveSeries writeOk st ns).1.isPlaying = st.isPlaying ∧
    (saveSeries writeOk st ns).1.currentStep = st.currentStep ∧
    (saveSeries writeOk st ns).1.remainingTime = st.remainingTime := by
  cases writeOk <;> exact ⟨rfl, rfl, rfl, rfl⟩

/-- Claim C1: for every series with N ≥ 1 steps and distinct step ids (the
stated id invariant), starting playback with handlePlaySeries emits no
notification by itself, and driving the session through any completing tick
schedule fires exactly one step-boundary notification per step, in step
order, followed by exactly one series-completion notification.  The
CompleteRun schedule admits a crossing tick at any elapsed at or above the
step's duration -- for a zero-duration step already at elapsed 0 -- so
zero-duration steps are each visited exactly once, neither skipped nor
coalesced. -/
theorem play_to_completion_trace (st : ScreenState) (s : AlarmSeries)
    (hne : s.steps ≠ [])
    (hnd : (s.steps.map AlarmStep.id).Nodup)
    (els : List Int) (hels : CompleteRun s.steps els) :
    (handlePlaySeries st s).2 = [] ∧
    runTicks (handlePlaySeries st s).1 els =
      (s.steps.map (fun x => Event.stepBoundary x.id)) ++ [Event.seriesComplete] := by
  obtain ⟨c, rest, hs⟩ := List.exists_cons_of_ne_nil hne
  have hplay : handlePlaySeries st s =
      ({ st with currentSeries := some s, currentStep := some c,
                 remainingTime := c.duration, isPlaying := true }, []) := by
    unfold handlePlaySeries
    rw [hs]
  rw [hplay, hs]
  exact ⟨rfl, runTicks_completes s hnd s.steps els hels [] c rest _ hs hs rfl rfl rfl⟩

/-- Witness for claim C1: a two-step series whose steps both have duration
zero, driven by the schedule delivering one tick per step at elapsed 0;
each step fires exactly once, in order, then the completion fires. -/
theorem play_to_completion_trace_witness :
    runTicks (handlePlaySeries idleState
        { id := ("z1"), name := ("Zeros"),
          steps := [{ id := ("a"), duration := 0, name := ("A") },
                    { id := ("b"), duration := 0, name := ("B") }] }).1 [0, 0] =
      [Event.stepBoundary ("a"), Event.stepBoundary ("b"), Event.seriesComplete] :=
  (play_to_completion_trace idleState
    { id := ("z1"), name := ("Zeros"),
      steps := [{ id := ("a"), duration := 0, name := ("A") },
                { id := ("b"), duration := 0, name := ("B") }] }
    (by decide) (by decide) [0, 0]
    (CompleteRun.cross (by decide) (CompleteRun.cross (by decide) CompleteRun.nil))).2

/-- Claim C2: while a session is Running on a current step with a
nonnegative authored duration, the remaining time the timer computes for
any nonnegative elapsed reading -- however late the tick, including one
delivered at five times the step duration -- equals
max 0 (duration - elapsed), lies within [0, duration] and is never
negative; while it is still positive the tick reports exactly that value
and emits no notification. -/
theorem remainingTime_bounds (st : ScreenState) (c : AlarmStep) (e : Int)
    (hp : st.isPlaying = true) (hstep : st.currentStep = some c)
    (hd : 0 ≤ c.duration) (he : 0 ≤ e) :
    newRemaining c.duration e = max 0 (c.duration - e) ∧
    0 ≤ newRemaining c.duration e ∧
    newRemaining c.duration e ≤ c.duration ∧
    (0 < newRemaining c.duration e →
      (tick st e).1.remainingTime = c.duration - e ∧ (tick st e).2 = []) := by
  refine ⟨rfl, by unfold newRemaining; omega, by unfold newRemaining; omega, ?_⟩
  intro hpos
  have hlt : e < c.duration := by unfold newRemaining at hpos; omega
  have hr := newRemaining_of_lt c.duration e hlt
  rw [tick_running st c e hp hstep, if_neg (by omega)]
  exact ⟨hr.2, rfl⟩

/-- Witness for claim C2: a tick delivered at elapsed 50 against a step of
duration 10 (five times the duration) still yields a remaining time of
max 0 (10 - 50) = 0, within [0, 10] and nonnegative. -/
theorem remainingTime_bounds_witness :
    newRemaining 10 50 = max 0 (10 - 50) ∧
    0 ≤ newRemaining 10 50 ∧
    newRemaining 10 50 ≤ 10 := by
  have h := remainingTime_bounds
    { series := [], currentSeries := none, isEditing := false, isPlaying := true,
      currentStep := some { id := ("w"), duration := 10, name := ("W") },
      remainingTime := 10, storage := none }
    { id := ("w"), duration := 10, name := ("W") } 50 rfl rfl (by decide) (by decide)
  exact ⟨h.1, h.2.1, h.2.2.1⟩

/-- Counterexample to claim C3: with the two-step pomodoro playing and
positioned on its first step, the editor operation updating the second
step's duration to 999 changes the running session's step sequence (there
is no snapshot: the session and the editor share currentSeries); at the
next step boundary the session picks up the edited duration, reporting 999
instead of the authored 200. -/
theorem edit_during_playback_changes_session :
    ((handleUpdateStep stateC3 ("b") { duration? := some 999 }).currentSeries.map
        AlarmSeries.steps ≠ stateC3.currentSeries.map AlarmSeries.steps) ∧
    (tick (handleUpdateStep stateC3 ("b") { duration? := some 999 }) 100).1.remainingTime = 999 ∧
    (tick stateC3 100).1.remainingTime = 200 := by
  exact ⟨by decide, by decide, by decide⟩

/-- Each editor operation leaves the playback fields untouched while
rewriting the shared currentSeries in place. -/
theorem editor_edit_in_place (st : ScreenState) (cs : AlarmSeries)
    (hcs : st.currentSeries = some cs) (writeOk : Bool)
    (sid : String) (p : StepPatch) (now : Nat) (ss : List AlarmStep) (txt : String) :
    (handleUpdateStep st sid p = { st with currentSeries := some { cs with
        steps := cs.steps.map (fun s => if s.id = sid then applyPatch s p else s) } }) ∧
    (handleAddStep st now = { st with currentSeries := some { cs with
        steps := cs.steps ++ [{ id := toString now, duration := 60000, name := ("Step ") ++ toString (cs.steps.length + 1) }] } }) ∧
    (handleReorderSteps st ss = { st with currentSeries := some { cs with steps := ss } }) ∧
    (handleRenameSeries st txt = { st with currentSeries := some { cs with name := txt } }) ∧
    ((handleRemoveStep writeOk st sid).1.currentSeries =
      some { cs with steps := cs.steps.filter (fun s => s.id ≠ sid) }) ∧
    ((handleRemoveStep writeOk st sid).1.isPlaying = st.isPlaying) ∧
    ((handleRemoveStep writeOk st sid).1.currentStep = st.currentStep) ∧
    ((handleRemoveStep writeOk st sid).1.remainingTime = st.remainingTime) := by
  have hrm : handleRemoveStep writeOk st sid =
      saveSeries writeOk { st with currentSeries := some { cs with
          steps := cs.steps.filter (fun s => s.id ≠ sid) } }
        (st.series.map (fun s => if s.id = cs.id then
          { cs with steps := cs.steps.filter (fun s2 => s2.id ≠ sid) } else s)) := by
    unfold handleRemoveStep
    rw [hcs]
  have hframe := saveSeries_frame writeOk
    { st with currentSeries := some { cs with
        steps := cs.steps.filter (fun s => s.id ≠ sid) } }
    (st.series.map (fun s => if s.id = cs.id then
      { cs with steps := cs.steps.filter (fun s2 => s2.id ≠ sid) } else s))
  refine ⟨?_, ?_, ?_, ?_, ?_, ?_, ?_, ?_⟩
  · unfold handleUpdateStep; rw [hcs]
  · unfold handleAddStep; rw [hcs]
  · unfold handleReorderSteps; rw [hcs]
  · unfold handleRenameSeries; rw [hcs]
  · rw [hrm]; exact hframe.1
  · rw [hrm]; exact hframe.2.1
  · rw [hrm]; exact hframe.2.2.1
  · rw [hrm]; exact hframe.2.2.2

/-- Claim C3 amended: an editor operation performed while a session is
Running leaves the session's isPlaying, currentStep and remainingTime
variables unchanged at the moment of the edit, but it rewrites the shared
currentSeries in place, so the running session's step sequence is the
edited one rather than a snapshot taken at play. -/
theorem editor_ops_frame (st : ScreenState) (cs : AlarmSeries)
    (hcs : st.currentSeries = some cs) (writeOk : Bool)
    (sid : String) (p : StepPatch) (now : Nat) (ss : List AlarmStep) (txt : String) :
    (handleUpdateStep st sid p = { st with currentSeries := some { cs with
        steps := cs.steps.map (fun s => if s.id = sid then applyPatch s p else s) } }) ∧
    (handleAddStep st now = { st with currentSeries := some { cs with
        steps := cs.steps ++ [{ id := toString now, duration := 60000, name := ("Step ") ++ toString (cs.steps.length + 1) }] } }) ∧
    (handleReorderSteps st ss = { st with currentSeries := some { cs with steps := ss } }) ∧
    (handleRenameSeries st txt = { st with currentSeries := some { cs with name := txt } }) ∧
    ((handleRemoveStep writeOk st sid).1.currentSeries =
      some { cs with steps := cs.steps.filter (fun s => s.id ≠ sid) }) ∧
    ((handleRemoveStep writeOk st sid).1.isPlaying = st.isPlaying) ∧
    ((handleRemoveStep writeOk st sid).1.currentStep = st.currentStep) ∧
    ((handleRemoveStep writeOk st sid).1.remainingTime = st.remainingTime) :=
  editor_edit_in_place st cs hcs writeOk sid p now ss txt

/-- Witness for the amended claim C3: updating the second pomodoro step's
duration to 999 while stateC3 is playing yields exactly the in-place edit
of the shared draft, all playback fields unchanged. -/
theorem editor_ops_frame_witness :
    handleUpdateStep stateC3 ("b") { duration? := some 999 } =
      { stateC3 with currentSeries := some { pomodoro with
          steps := pomodoro.steps.map (fun s =>
            if s.id = ("b") then applyPatch s { duration? := some 999 } else s) } } :=
  (editor_ops_frame stateC3 pomodoro rfl true ("b") { duration? := some 999 } 7 [] ("x")).1

/-- Claim C4 fails on the code: deleting the currently playing series does
not stop playback.  In stateC4 the one-step series q1 is playing; after
handleDeleteSeries on q1 the engine is still Running with the old current
step and remaining time, and the next timer tick at that step's boundary
still fires a step-boundary notification followed by a spurious
Series Complete alert, instead of the required immediate Idle transition
with no further notifications. -/
theorem delete_playing_series_keeps_playing :
    ((handleDeleteSeries true stateC4 ("q1")).1.isPlaying = true) ∧
    ((handleDeleteSeries true stateC4 ("q1")).1.currentStep =
      some { id := ("x"), duration := 100, name := ("X") }) ∧
    ((handleDeleteSeries true stateC4 ("q1")).1.remainingTime = 100) ∧
    ((tick (handleDeleteSeries true stateC4 ("q1")).1 100).2 =
      [Event.stepBoundary ("x"), Event.seriesComplete]) := by
  exact ⟨by decide, by decide, by decide, by decide⟩

/-- Claim C5: playing a series with no steps is rejected before any state
transition: the state is returned exactly unchanged -- an Idle engine stays
Idle, no session fields are set -- and the only emitted signal is the
user-facing validation alert; in particular no step-boundary and no
series-completion notification fires. -/
theorem play_empty_series_rejected (st : ScreenState) (s : AlarmSeries)
    (h : s.steps = []) :
    handlePlaySeries st s = (st, [Event.alert ("Please add steps to the series first")]) := by
  unfold handlePlaySeries
  rw [h]

/-- Witness for claim C5: playing a concrete empty series from the initial
state changes nothing and yields only the validation alert. -/
theorem play_empty_series_rejected_witness :
    handlePlaySeries idleState { id := ("e1"), name := ("Empty"), steps := [] } =
      (idleState, [Event.alert ("Please add steps to the series first")]) :=
  play_empty_series_rejected idleState { id := ("e1"), name := ("Empty"), steps := [] } rfl

/-- Claim C6: saveSeries is atomic with respect to failure.  A failing
write leaves both the persisted slot and the caller-visible in-memory list
exactly as they were, showing only an error alert; a successful write
replaces the persisted payload with precisely the encoding of the argument
-- which decodes back to exactly the argument -- and installs the argument
as the in-memory collection. -/
theorem saveSeries_atomic (st : ScreenState) (ns : List AlarmSeries) :
    saveSeries false st ns =
      (st, [Event.alert ("Failed to save series. Please try again.")]) ∧
    (saveSeries true st ns).1.storage = some (some (encodeSeriesList ns)) ∧
    (saveSeries true st ns).1.series = ns ∧
    (saveSeries true st ns).2 = [] ∧
    decodeSeriesList (encodeSeriesList ns) = some ns :=
  ⟨rfl, rfl, rfl, rfl, decodeSeriesList_encodeSeriesList ns⟩

/-- Counterexample to claim C7: the persisted payload 42 is valid JSON but
cannot be parsed into valid Series records, yet loadSeries installs it as
the collection with no StorageCorrupt handling and no warning -- the catch
block only sees JSON.parse exceptions, and no record validation exists. -/
theorem load_installs_invalid_payload :
    loadSeries (some (some (Json.num 42))) = (LoadOutcome.installed (Json.num 42), []) ∧
    decodeSeriesList (Json.num 42) = none :=
  ⟨rfl, rfl⟩

/-- Claim C7 amended: loadSeries leaves the collection at its initial empty
value when nothing is persisted; a payload on which JSON.parse throws is
surfaced with a user-visible alert and the collection again stays empty;
but any payload that parses as JSON is installed without validating that it
holds Series records -- validity is only guaranteed for payloads written by
the encoder, which decode back to exactly the collection saved. -/
theorem load_behavior_amended (j : Json) (ns : List AlarmSeries) :
    loadSeries none = (LoadOutcome.noStored, []) ∧
    loadSeries (some none) =
      (LoadOutcome.parseFailed, [Event.alert ("Failed to load series. Please restart the app.")]) ∧
    loadSeries (some (some j)) = (LoadOutcome.installed j, []) ∧
    loadSeries (some (some (encodeSeriesList ns))) =
      (LoadOutcome.installed (encodeSeriesList ns), []) ∧
    decodeSeriesList (encodeSeriesList ns) = some ns :=
  ⟨rfl, rfl, rfl, rfl, decodeSeriesList_encodeSeriesList ns⟩

/-- Counterexample to claim C8: stateC8's draft holds the two pomodoro
steps a and b; the supplied sequence containing only step a omits b's id,
yet handleReorderSteps installs it verbatim -- the draft's step sequence
changes and no InvalidReorder failure occurs. -/
theorem reorder_without_validation :
    (handleReorderSteps stateC8
        [{ id := ("a"), duration := 100, name := ("Work") }]).currentSeries =
      some { id := ("p1"), name := ("Pomodoro"),
             steps := [{ id := ("a"), duration := 100, name := ("Work") }] } ∧
    (handleReorderSteps stateC8
        [{ id := ("a"), duration := 100, name := ("Work") }]).currentSeries ≠
      stateC8.currentSeries :=
  ⟨rfl, by decide⟩

/-- Claim C8 amended: handleReorderSteps validates nothing: whatever step
sequence the caller supplies becomes the draft's steps verbatim and nothing
else in the state changes.  A sequence carrying exactly the draft's step id
set is therefore installed exactly as supplied, but a sequence that omits
or duplicates an id is installed just the same, silently, with no
InvalidReorder failure and without leaving the draft unchanged. -/
theorem reorder_installs_supplied (st : ScreenState) (cs : AlarmSeries)
    (hcs : st.currentSeries = some cs) (ss : List AlarmStep) :
    handleReorderSteps st ss = { st with currentSeries := some { cs with steps := ss } } := by
  unfold handleReorderSteps
  rw [hcs]

/-- Witness for the amended claim C8: supplying the reversed permutation of
the pomodoro steps installs exactly that permutation in the draft. -/
theorem reorder_installs_supplied_witness :
    handleReorderSteps stateC8
        [{ id := ("b"), duration := 200, name := ("Break") },
         { id := ("a"), duration := 100, name := ("Work") }] =
      { stateC8 with currentSeries := some { pomodoro with
          steps := [{ id := ("b"), duration := 200, name := ("Break") },
                    { id := ("a"), duration := 100, name := ("Work") }] } } :=
  reorder_installs_supplied stateC8 pomodoro rfl
    [{ id := ("b"), duration := 200, name := ("Break") },
     { id := ("a"), duration := 100, name := ("Work") }]

/-- Counterexample to claim C9: stateC9's draft already holds a step with
id 5; handleAddStep at clock reading 5 -- a second addition within the same
millisecond -- generates the very same id from Date.now().toString(), so
the draft ends up with duplicate step ids. -/
theorem addStep_duplicate_id :
    ((handleAddStep stateC9 5).currentSeries.map
        (fun cs => cs.steps.map AlarmStep.id)) = some [("5"), ("5")] ∧
    ¬ (((handleAddStep stateC9 5).currentSeries.map
        (fun cs => cs.steps.map AlarmStep.id)).getD []).Nodup := by
  exact ⟨by decide, by decide⟩

/-- Claim C9 amended: handleAddStep appends exactly one step whose id is
toString of the clock reading, whose duration is the default 60000 ms and
whose name is Step N with N = current count + 1; the draft's step ids stay
unique only under the additional assumption that no existing step already
carries that very id -- which two additions in the same millisecond
violate. -/
theorem addStep_defaults (st : ScreenState) (cs : AlarmSeries) (now : Nat)
    (hcs : st.currentSeries = some cs)
    (hnd : (cs.steps.map AlarmStep.id).Nodup)
    (hfresh : (toString now) ∉ cs.steps.map AlarmStep.id) :
    (handleAddStep st now).currentSeries =
      some { cs with steps := cs.steps ++ [({ id := toString now, duration := 60000, name := ("Step ") ++ toString (cs.steps.length + 1) } : AlarmStep)] } ∧
    ((cs.steps ++ [({ id := toString now, duration := 60000, name := ("Step ") ++ toString (cs.steps.length + 1) } : AlarmStep)]).map AlarmStep.id).Nodup := by
  constructor
  · unfold handleAddStep
    rw [hcs]
  · rw [List.map_append]
    refine List.Nodup.append hnd (by simp) ?_
    intro x hx hmem
    simp only [List.map_cons, List.map_nil, List.mem_singleton] at hmem
    subst hmem
    exact hfresh hx

/-- Witness for the amended claim C9: adding a step to stateC9's draft at
clock reading 7 appends the defaulted step with the fresh id 7 and keeps
the draft's step ids unique. -/
theorem addStep_defaults_witness :
    (handleAddStep stateC9 7).currentSeries =
      some { seriesC9 with steps := seriesC9.steps ++ [({ id := toString 7, duration := 60000, name := ("Step ") ++ toString (seriesC9.steps.length + 1) } : AlarmStep)] } ∧
    ((seriesC9.steps ++ [({ id := toString 7, duration := 60000, name := ("Step ") ++ toString (seriesC9.steps.length + 1) } : AlarmStep)]).map AlarmStep.id).Nodup :=
  addStep_defaults stateC9 seriesC9 7 rfl (by decide) (by decide)

/-- Counterexample to claim C10: stateC10's draft satisfies the duration
invariant (its single step has duration 60000 ≥ 0), yet updateStep with a
partial carrying duration -1 installs the negative duration verbatim --
updateStep does not preserve the invariant for arbitrary supplied fields. -/
theorem updateStep_installs_negative_duration :
    durationsOk ((stateC10.currentSeries.map AlarmSeries.steps).getD []) = true ∧
    ((handleUpdateStep stateC10 ("a") { duration? := some (-1) }).currentSeries.map
        (fun cs => cs.steps.map AlarmStep.duration)) = some [-1] ∧
    durationsOk (((handleUpdateStep stateC10 ("a")
        { duration? := some (-1) }).currentSeries.map AlarmSeries.steps).getD []) = false := by
  exact ⟨by decide, by decide, by decide⟩

/-- Claim C10 amended: over a draft all of whose step durations are
nonnegative, handleAddStep and handleRemoveStep unconditionally keep every
duration nonnegative; handleUpdateStep keeps them nonnegative exactly under
the extra assumption that the supplied partial's duration field, when
present, is nonnegative (the value is installed verbatim, so a negative
supplied duration lands in the draft); handleReorderSteps keeps them
nonnegative under the extra assumption that the supplied steps' durations
are nonnegative (the sequence is installed verbatim). -/
theorem editor_ops_duration_invariant (st : ScreenState) (cs : AlarmSeries)
    (now : Nat) (writeOk : Bool) (sid : String) (p : StepPatch) (ss : List AlarmStep)
    (hcs : st.currentSeries = some cs)
    (hpos : durationsOk cs.steps = true)
    (hp : ∀ d, p.duration? = some d → 0 ≤ d)
    (hss : durationsOk ss = true) :
    durationsOk (((handleAddStep st now).currentSeries.map AlarmSeries.steps).getD []) = true ∧
    durationsOk ((((handleRemoveStep writeOk st sid).1.currentSeries.map
        AlarmSeries.steps).getD [])) = true ∧
    durationsOk (((handleUpdateStep st sid p).currentSeries.map
        AlarmSeries.steps).getD []) = true ∧
    durationsOk (((handleReorderSteps st ss).currentSeries.map
        AlarmSeries.steps).getD []) = true := by
  rw [durationsOk, List.all_eq_true] at hpos hss
  have hframe := editor_edit_in_place st cs hcs writeOk sid p now ss ("")
  refine ⟨?_, ?_, ?_, ?_⟩
  · rw [hframe.2.1, durationsOk, List.all_eq_true]
    intro s2 hs2
    have hs2' : s2 ∈ cs.steps ++ [({ id := toString now, duration := 60000, name := ("Step ") ++ toString (cs.steps.length + 1) } : AlarmStep)] := hs2
    rcases List.mem_append.mp hs2' with h1 | h1
    · exact hpos s2 h1
    · simp only [List.mem_singleton] at h1
      subst h1
      rfl
  · rw [hframe.2.2.2.2.1, durationsOk, List.all_eq_true]
    intro s2 hs2
    have hs2' : s2 ∈ cs.steps.filter (fun s => decide (s.id ≠ sid)) := hs2
    exact hpos s2 (List.mem_of_mem_filter hs2')
  · rw [hframe.1, durationsOk, List.all_eq_true]
    intro s2 hs2
    have hs2' : s2 ∈ cs.steps.map (fun s => if s.id = sid then applyPatch s p else s) := hs2
    rcases List.mem_map.mp hs2' with ⟨x, hxmem, hxeq⟩
    subst hxeq
    by_cases hid : x.id = sid
    · rw [if_pos hid]
      rcases hdur : p.duration? with _ | d
      · have hda : (applyPatch x p).duration = x.duration := by
          simp [applyPatch, hdur]
        rw [hda]
        exact hpos x hxmem
      · have hda : (applyPatch x p).duration = d := by
          simp [applyPatch, hdur]
        rw [hda]
        exact decide_eq_true (hp d hdur)
    · rw [if_neg hid]
      exact hpos x hxmem
  · rw [hframe.2.2.1, durationsOk, List.all_eq_true]
    intro s2 hs2
    have hs2' : s2 ∈ ss := hs2
    exact hss s2 hs2'

/-- Witness for the amended claim C10: over stateC10's invariant-respecting
draft, adding a step at clock reading 9 keeps every duration nonnegative. -/
theorem editor_ops_duration_invariant_witness :
    durationsOk (((handleAddStep stateC10 9).currentSeries.map
        AlarmSeries.steps).getD []) = true :=
  (editor_ops_duration_invariant stateC10 seriesC10 9 true ("a")
    { duration? := some 1 } [] rfl (by decide)
    (fun d hd => by simp at hd; omega) (by decide)).1
